import Mathlib

/-!
Verification of the asynchronous native-window capture coordinator
(`bevy_xcap`, `src/lib.rs`) against its natural-language specification.

The development shallowly embeds the crate's code:

* the Platform Window Locator and Pixel Reader (`native_window_id`,
  `capture_window`, `capture_xcap_window`) become pure Lean functions over an
  abstract enumeration of OS windows;
* the Request Coordinator systems (`dispatch_captures`, `poll_captures`)
  become functions producing the queue of deferred world commands that the
  host engine applies at the next sync point, plus the list of worker
  spawns and warnings;
* command application (`applyCmd`/`applyCmds`) models the host engine
  applying those queued commands to the world, including its documented
  handling of commands that target an already-despawned entity;
* a small transition system (`SysState`, `Action`, `run`) composes the
  phases with user submissions, user despawns and worker completions, in
  every interleaving, to settle trace-level invariants.
-/

namespace BevyXcap

/-- Compilation target, modelling the `#[cfg(target_os = ...)]` blocks in
`native_window_id`: each build enables at most one family of numeric-id
extractions. -/
inductive TargetOS where
  | windows
  | linux
  | macos
deriving DecidableEq

/-- The variants of `raw_window_handle::RawWindowHandle` distinguished by the
crate.  `win32` carries the `HWND` as a signed machine integer
(`NonZeroIsize`), `xlib` carries the X11 window id (`c_ulong`), `xcb` carries
the XCB window id (`NonZeroU32`); every other variant (notably the Apple
view pointer) is collapsed into `other`, which `native_window_id` never
inspects. -/
inductive RawWindowHandle where
  | win32 (hwnd : Int)
  | xlib (window : Nat)
  | xcb (window : Nat)
  | other
deriving DecidableEq

/-- `native_window_id` (src/lib.rs:185-200): extract a numeric native window
id from the raw handle.  On Windows a `Win32` handle yields the HWND
truncated to 32 bits (`h.hwnd.get() as u32`); on Linux an `Xlib` handle
yields `h.window as u32` and an `Xcb` handle yields `h.window.get()`;
everything else yields `None`. -/
def native_window_id (os : TargetOS) (handle : RawWindowHandle) : Option Nat :=
  match os, handle with
  | .windows, .win32 hwnd => some ((hwnd % (2 ^ 32 : Int)).toNat)
  | .linux, .xlib window => some (window % 2 ^ 32)
  | .linux, .xcb window => some window
  | _, _ => none

/-- A raw RGBA image as produced by the capture facility
(`xcap::Window::capture_image`): width, height and the backing byte
container. -/
structure Img where
  width : Nat
  height : Nat
  rgba : List Nat
deriving DecidableEq

/-- The RGBA image-buffer well-formedness invariant maintained by the
capture facility: the byte container holds exactly `width * height * 4`
bytes. -/
def Img.wf (img : Img) : Prop :=
  img.rgba.length = img.width * img.height * 4

instance (img : Img) : Decidable img.wf := by
  unfold Img.wf; infer_instance

instance {ε α : Type} [DecidableEq ε] [DecidableEq α] : DecidableEq (Except ε α)
  | .ok a, .ok b =>
    if h : a = b then .isTrue (by rw [h])
    else .isFalse (by intro hh; cases hh; exact h rfl)
  | .ok _, .error _ => .isFalse (by intro h; cases h)
  | .error _, .ok _ => .isFalse (by intro h; cases h)
  | .error e, .error f =>
    if h : e = f then .isTrue (by rw [h])
    else .isFalse (by intro hh; cases hh; exact h rfl)

/-- One OS window as seen through the capture facility (`xcap::Window`):
`id` models `w.id().ok()`, `title` models `w.title().ok()`, and `capture`
models the outcome of `w.capture_image()` (the raw image on success, the
error display string on failure). -/
structure XcapWindow where
  id : Option Nat
  title : Option String
  capture : Except String Img
deriving DecidableEq

/-- `capture_xcap_window` (src/lib.rs:173-183): run the platform capture
primitive on a located window; on success return
`(width, height, raw bytes)`, on failure the formatted error string. -/
def capture_xcap_window (w : XcapWindow) : Except String (Nat × Nat × List Nat) :=
  match w.capture with
  | .error e => .error ("Capture failed: " ++ e)
  | .ok image => .ok (image.width, image.height, image.rgba)

/-- The title-fallback block of `capture_window` (src/lib.rs:160-168): if a
title snapshot was provided, capture the first enumerated window whose
title equals it exactly; otherwise (or when no title matches) report
not-found. -/
def titleFallback (allWindows : List XcapWindow) (title : Option String) :
    Except String (Nat × Nat × List Nat) :=
  match title with
  | some t =>
    match allWindows.find? (fun w => w.title = some t) with
    | some w => capture_xcap_window w
    | none => .error ("No matching xcap window found")
  | none => .error ("No matching xcap window found")

/-- `capture_window` (src/lib.rs:144-171): enumerate all OS windows
(`enumRes` models the outcome of `xcap::Window::all()`), then try the
numeric-id match and return immediately from it when a window with the
target id is found; otherwise fall back to the exact-title match; otherwise
fail with the not-found message. -/
def capture_window (os : TargetOS) (enumRes : Except String (List XcapWindow))
    (raw : RawWindowHandle) (title : Option String) :
    Except String (Nat × Nat × List Nat) :=
  match enumRes with
  | .error e => .error ("Failed to enumerate windows: " ++ e)
  | .ok allWindows =>
    match native_window_id os raw with
    | some targetId =>
      match allWindows.find? (fun w => w.id = some targetId) with
      | some w => capture_xcap_window w
      | none => titleFallback allWindows title
    | none => titleFallback allWindows title

example :
    capture_window .linux
      (.ok [⟨some 7, some (" a"), .ok ⟨1, 1, [0, 0, 0, 0]⟩⟩])
      (.xcb 7) none = .ok (1, 1, [0, 0, 0, 0]) := by decide

example :
    capture_window .macos
      (.ok [⟨some 7, some ("t"), .ok ⟨1, 1, [0, 0, 0, 0]⟩⟩])
      .other (some ("t")) = .ok (1, 1, [0, 0, 0, 0]) := by decide

example :
    capture_window .windows (.ok []) (.win32 (-1)) none =
      .error ("No matching xcap window found") := by decide

example : native_window_id .windows (.win32 (-1)) = some (2 ^ 32 - 1) := by decide

/-! ## The Request Coordinator -/

/-- A capture request record as it lives in the host world: the entity id of
the `NativeScreenshot` record, the entity id of its target window
(`NativeScreenshot.target`), the change-detection flag of the
`Added<NativeScreenshot>` query (true until the dispatch system has run over
the record once), and the `Capturing` / `Captured` marker components. -/
structure Req where
  id : Nat
  target : Nat
  isNew : Bool
  capturing : Bool
  captured : Bool
deriving DecidableEq

/-- The completion event (`NativeScreenshotCaptured`): request entity,
dimensions, and the raw RGBA bytes. -/
structure Event where
  entity : Nat
  width : Nat
  height : Nat
  rgba : List Nat
deriving DecidableEq

/-- The deferred world commands the two coordinator systems enqueue:
`insertCapturing` / `removeCapturing` / `insertCaptured` insert or remove
the lifecycle marker components, `trigger` fires the completion event at the
request entity (running its observer callback), `despawn` destroys the
record. -/
inductive Cmd where
  | insertCapturing (e : Nat)
  | removeCapturing (e : Nat)
  | insertCaptured (e : Nat)
  | trigger (e : Nat) (width : Nat) (height : Nat) (rgba : List Nat)
  | despawn (e : Nat)
deriving DecidableEq

/-- The world-side state the queued commands act on: the live request
records, the completion events delivered to user callbacks so far, and the
ids of records that have been removed from the world. -/
structure CoordState where
  world : List Req
  events : List Event
  removed : List Nat
deriving DecidableEq

/-- Modelled from the spec: the host engine applies each queued command at
the next sync point.  A command whose target entity has already been
despawned is dropped with a warning and mutates nothing, and triggering an
event at a despawned entity runs no observer — the spec documents that a
worker message arriving after the user destroyed the request record is
dropped without a callback and without a crash (the engine's own sources are
not part of this repository). -/
def applyCmd (a : CoordState) : Cmd → CoordState
  | .insertCapturing e =>
    { a with world := a.world.map (fun r => if r.id = e then { r with capturing := true } else r) }
  | .removeCapturing e =>
    { a with world := a.world.map (fun r => if r.id = e then { r with capturing := false } else r) }
  | .insertCaptured e =>
    { a with world := a.world.map (fun r => if r.id = e then { r with captured := true } else r) }
  | .trigger e width height rgba =>
    if a.world.any (fun r => r.id = e) then
      { a with events := a.events ++ [⟨e, width, height, rgba⟩] }
    else a
  | .despawn e =>
    if a.world.any (fun r => r.id = e) then
      { a with world := a.world.filter (fun r => r.id ≠ e),
               removed := a.removed ++ [e] }
    else a

/-- Apply a whole command queue in order. -/
def applyCmds (a : CoordState) (cs : List Cmd) : CoordState :=
  cs.foldl applyCmd a

/-- A worker thread spawned by the dispatch system, carrying exactly the
values the closure moves across the thread boundary: the request entity id,
the cloned raw handle and the title snapshot (src/lib.rs:108-114). -/
structure WorkerSpawn where
  reqId : Nat
  handle : RawWindowHandle
  title : Option String
deriving DecidableEq

/-- Output of one `dispatch_captures` run: the queued commands, the worker
threads spawned inline, and the warnings logged. -/
structure DispatchOut where
  cmds : List Cmd
  spawns : List WorkerSpawn
  warns : List String
deriving DecidableEq

/-- The body of the `dispatch_captures` loop (src/lib.rs:91-115) for one
newly added request: if the target entity has no `RawHandleWrapper`, warn
and despawn the record, spawning nothing; otherwise snapshot the target's
title, insert `Capturing` and spawn a worker with the cloned handle and the
snapshot. -/
def reqDispatch (handles : Nat → Option RawWindowHandle)
    (titles : Nat → Option String) (r : Req) : DispatchOut :=
  match handles r.target with
  | none =>
    ⟨[Cmd.despawn r.id], [],
      [("[bevy_xcap] Target entity " ++ toString r.target ++ " has no RawHandleWrapper")]⟩
  | some h =>
    ⟨[Cmd.insertCapturing r.id], [⟨r.id, h, titles r.target⟩], []⟩

/-- `dispatch_captures` (src/lib.rs:84-116): process every request matched
by the `Added<NativeScreenshot>` query, independently and in order. -/
def dispatch_captures (handles : Nat → Option RawWindowHandle)
    (titles : Nat → Option String) : List Req → DispatchOut
  | [] => ⟨[], [], []⟩
  | r :: rest =>
    let d := reqDispatch handles titles r
    let ds := dispatch_captures handles titles rest
    ⟨d.cmds ++ ds.cmds, d.spawns ++ ds.spawns, d.warns ++ ds.warns⟩

/-- One message on the result channel: the request entity id together with
either `(width, height, bytes)` or the failure string
(`type CaptureResult`, src/lib.rs:64). -/
abbrev CaptureMsg := Nat × Except String (Nat × Nat × List Nat)

/-- The commands `poll_captures` enqueues for one received message
(src/lib.rs:122-140): on success remove `Capturing`, insert `Captured`,
trigger the completion event, then despawn; on failure just despawn. -/
def msgCmds : CaptureMsg → List Cmd
  | (e, .ok (width, height, rgba)) =>
    [Cmd.removeCapturing e, Cmd.insertCaptured e,
     Cmd.trigger e width height rgba, Cmd.despawn e]
  | (e, .error _) => [Cmd.despawn e]

/-- The warning `poll_captures` logs for one received message. -/
def msgWarns : CaptureMsg → List String
  | (_, .ok _) => []
  | (_, .error e) => [("[bevy_xcap] Failed to capture window: " ++ e)]

/-- Output of one `poll_captures` run: the queued commands, the warnings,
and the number of `try_recv` calls made on the channel. -/
structure PollOut where
  cmds : List Cmd
  warns : List String
  tries : Nat
deriving DecidableEq

/-- `poll_captures` (src/lib.rs:119-142): the `while let Ok(..) =
rx.try_recv()` drain loop over the messages currently available on the
channel, front first; each iteration is one successful `try_recv`, and the
loop ends with the single failed `try_recv` on the empty queue. -/
def poll_captures : List CaptureMsg → PollOut
  | [] => ⟨[], [], 1⟩
  | m :: rest =>
    let p := poll_captures rest
    ⟨msgCmds m ++ p.cmds, msgWarns m ++ p.warns, p.tries + 1⟩

example :
    applyCmds ⟨[⟨4, 0, false, true, false⟩], [], []⟩
        (msgCmds (4, .ok (1, 1, [9, 9, 9, 9]))) =
      ⟨[], [⟨4, 1, 1, [9, 9, 9, 9]⟩], [4]⟩ := by decide

example :
    applyCmds ⟨[⟨4, 0, false, true, false⟩], [], []⟩ (msgCmds (4, .error ("x"))) =
      ⟨[], [], [4]⟩ := by decide

example :
    applyCmds ⟨[], [], []⟩ (msgCmds (4, .ok (1, 1, [9, 9, 9, 9]))) =
      ⟨[], [], []⟩ := by decide

/-! ## The Update schedule built by the plugin -/

/-- The two systems the plugin registers. -/
inductive SystemId where
  | dispatch
  | poll
deriving DecidableEq

/-- A schedule: the registered systems and the declared ordering
constraints (pairs `(a, b)` meaning `a` must run before `b`). -/
structure UpdateSchedule where
  systems : List SystemId
  constraints : List (SystemId × SystemId)
deriving DecidableEq

/-- `XCapPlugin::build` (src/lib.rs:74-81) registers the two systems with
`app.add_systems(Update, (dispatch_captures, poll_captures))`.  In the host
scheduler a plain tuple of systems adds each member with no ordering
between them — an ordering edge is declared only by chaining the tuple or
by explicit before/after relations, and `build` declares neither. -/
def xcapUpdateSchedule : UpdateSchedule :=
  ⟨[SystemId.dispatch, SystemId.poll], []⟩

/-- An execution order of one tick is valid when it runs exactly the
registered systems and respects every declared ordering constraint. -/
def validTickOrder (sch : UpdateSchedule) (order : List SystemId) : Prop :=
  order.Perm sch.systems ∧
    ∀ c ∈ sch.constraints, order.indexOf c.1 < order.indexOf c.2

instance (sch : UpdateSchedule) (order : List SystemId) :
    Decidable (validTickOrder sch order) := by
  unfold validTickOrder; infer_instance

/-! ## The composed transition system

User submissions, user despawns, worker completions and the two coordinator
systems, in every interleaving the host scheduler allows. -/

/-- Global state: the id the host world will assign to the next spawned
record, the live request records, the workers that are still running, the
result channel contents, and cumulative histories (messages consumed,
workers ever launched, events ever delivered, records ever removed). -/
structure SysState where
  nextId : Nat
  world : List Req
  pending : List WorkerSpawn
  queue : List CaptureMsg
  consumed : List Nat
  launched : List Nat
  events : List Event
  removed : List Nat
deriving DecidableEq

/-- The ids of the live request records. -/
def idsOf (w : List Req) : List Nat := w.map Req.id

/-- One step of the environment or of the coordinator:
`submit` is user code spawning a request record against a target entity;
`destroy` is user code despawning a record;
`finish` is the worker for request `i` completing — it computes
`capture_window` on the handle and title it carried, over the window
enumeration `enumRes` the capture facility exposes at that moment, and
sends the single message to the channel;
`dispatchSys` runs `dispatch_captures` over the records currently matched
by `Added<NativeScreenshot>`, with the handle and title attributes the
world carries at that moment;
`pollSys` runs `poll_captures` over the channel. -/
inductive Action where
  | submit (target : Nat)
  | destroy (i : Nat)
  | finish (i : Nat) (enumRes : Except String (List XcapWindow))
  | dispatchSys (handles : Nat → Option RawWindowHandle) (titles : Nat → Option String)
  | pollSys

/-- User code spawns a fresh request record (`commands.spawn(NativeScreenshot::window(t))`);
the host world hands out a never-reused id. -/
def submitStep (t : Nat) (s : SysState) : SysState :=
  { s with nextId := s.nextId + 1,
           world := s.world ++ [⟨s.nextId, t, true, false, false⟩] }

/-- User code despawns the record with id `i` (if it is still live). -/
def destroyStep (i : Nat) (s : SysState) : SysState :=
  if s.world.any (fun r => r.id = i) then
    { s with world := s.world.filter (fun r => r.id ≠ i),
             removed := s.removed ++ [i] }
  else s

/-- The worker for request `i` finishes: it runs
`capture_window(&raw_handle, window_title.as_deref())` and sends the single
`(entity, result)` message (src/lib.rs:111-114). -/
def finishStep (os : TargetOS) (i : Nat) (enumRes : Except String (List XcapWindow))
    (s : SysState) : SysState :=
  match s.pending.find? (fun wk => wk.reqId = i) with
  | none => s
  | some wk =>
    { s with pending := s.pending.filter (fun wk => wk.reqId ≠ i),
             queue := s.queue ++ [(i, capture_window os enumRes wk.handle wk.title)] }

/-- One run of the dispatch system: `dispatch_captures` over the newly
added records, its commands applied at the following sync point; the
`Added` change-detection flag is consumed for every record the query
visited. -/
def dispatchStep (handles : Nat → Option RawWindowHandle)
    (titles : Nat → Option String) (s : SysState) : SysState :=
  let out := dispatch_captures handles titles (s.world.filter (fun r => r.isNew))
  let cleared := s.world.map (fun r => { r with isNew := false })
  let a := applyCmds ⟨cleared, s.events, s.removed⟩ out.cmds
  { s with world := a.world, events := a.events, removed := a.removed,
           pending := s.pending ++ out.spawns,
           launched := s.launched ++ out.spawns.map WorkerSpawn.reqId }

/-- One run of the poll system: `poll_captures` drains the channel and its
commands are applied at the following sync point. -/
def pollStep (s : SysState) : SysState :=
  let out := poll_captures s.queue
  let a := applyCmds ⟨s.world, s.events, s.removed⟩ out.cmds
  { s with world := a.world, events := a.events, removed := a.removed,
           queue := [],
           consumed := s.consumed ++ s.queue.map Prod.fst }

def step (os : TargetOS) (s : SysState) : Action → SysState
  | .submit t => submitStep t s
  | .destroy i => destroyStep i s
  | .finish i enumRes => finishStep os i enumRes s
  | .dispatchSys handles titles => dispatchStep handles titles s
  | .pollSys => pollStep s

/-- The empty initial world. -/
def initState : SysState := ⟨0, [], [], [], [], [], [], []⟩

/-- Run a sequence of actions from the initial state. -/
def run (os : TargetOS) (acts : List Action) : SysState :=
  acts.foldl (step os) initState

/-- No live record carries the `Captured` marker. -/
def noCaptured (w : List Req) : Prop :=
  ∀ r ∈ w, r.captured = false

example :
    run .linux
      [Action.submit 0,
       Action.dispatchSys (fun _ => some (RawWindowHandle.xcb 7)) (fun _ => none),
       Action.finish 0 (.ok [⟨some 7, none, .ok ⟨1, 1, [3, 3, 3, 3]⟩⟩]),
       Action.pollSys] =
      ⟨1, [], [], [], [0], [0], [⟨0, 1, 1, [3, 3, 3, 3]⟩], [0]⟩ := by decide

example :
    run .linux
      [Action.submit 5,
       Action.dispatchSys (fun _ => none) (fun _ => none)] =
      ⟨1, [], [], [], [], [], [], [0]⟩ := by decide

/-! ## Basic lemmas about command application -/

lemma any_id_eq (w : List Req) (e : Nat) :
    (w.any (fun r => r.id = e)) = true ↔ e ∈ idsOf w := by
  simp [idsOf, List.any_eq_true, List.mem_map]

lemma idsOf_map_of_id_eq (w : List Req) (g : Req → Req)
    (hg : ∀ r, (g r).id = r.id) : idsOf (w.map g) = idsOf w := by
  induction w with
  | nil => rfl
  | cons r rest ih =>
    simp only [idsOf, List.map_cons] at ih ⊢
    exact by rw [hg r, ih]

lemma filter_ne_map_upd (w : List Req) (e : Nat) (g : Req → Req)
    (hg : ∀ r, (g r).id = r.id) :
    (w.map (fun r => if r.id = e then g r else r)).filter (fun r => r.id ≠ e) =
      w.filter (fun r => r.id ≠ e) := by
  induction w with
  | nil => rfl
  | cons r rest ih =>
    by_cases h : r.id = e
    · rw [List.map_cons, if_pos h, List.filter_cons, List.filter_cons,
        decide_eq_false (show ¬((g r).id ≠ e) by simp [hg r, h]),
        decide_eq_false (show ¬(r.id ≠ e) by simp [h]),
        if_neg Bool.false_ne_true, if_neg Bool.false_ne_true]
      exact ih
    · rw [List.map_cons, if_neg h, List.filter_cons, List.filter_cons,
        decide_eq_true (show r.id ≠ e from h), if_pos rfl, if_pos rfl, ih]

lemma map_upd_of_not_mem (w : List Req) (e : Nat) (g : Req → Req)
    (he : e ∉ idsOf w) :
    w.map (fun r => if r.id = e then g r else r) = w := by
  induction w with
  | nil => rfl
  | cons r rest ih =>
    simp only [idsOf, List.map_cons, List.mem_cons, not_or] at he
    have h1 : ¬(r.id = e) := fun h => he.1 h.symm
    rw [List.map_cons, if_neg h1, ih he.2]

lemma filter_ne_of_not_mem (w : List Req) (e : Nat) (he : e ∉ idsOf w) :
    w.filter (fun r => r.id ≠ e) = w := by
  induction w with
  | nil => rfl
  | cons r rest ih =>
    simp only [idsOf, List.map_cons, List.mem_cons, not_or] at he
    rw [List.filter_cons,
      decide_eq_true (show r.id ≠ e from fun h => he.1 h.symm),
      if_pos rfl, ih he.2]

lemma not_mem_idsOf_filter_ne (w : List Req) (e : Nat) :
    e ∉ idsOf (w.filter (fun r => r.id ≠ e)) := by
  simp only [idsOf, List.mem_map, List.mem_filter, decide_eq_true_eq]
  rintro ⟨r, ⟨_, hne⟩, hid⟩
  exact hne hid

lemma idsOf_applyCmd (a : CoordState) (c : Cmd) :
    List.Sublist (idsOf (applyCmd a c).world) (idsOf a.world) := by
  cases c with
  | insertCapturing e =>
    rw [show (applyCmd a (.insertCapturing e)).world =
      a.world.map (fun r => if r.id = e then { r with capturing := true } else r) from rfl]
    rw [idsOf_map_of_id_eq _ _ (fun r => by by_cases h : r.id = e <;> simp [h])]
  | removeCapturing e =>
    rw [show (applyCmd a (.removeCapturing e)).world =
      a.world.map (fun r => if r.id = e then { r with capturing := false } else r) from rfl]
    rw [idsOf_map_of_id_eq _ _ (fun r => by by_cases h : r.id = e <;> simp [h])]
  | insertCaptured e =>
    rw [show (applyCmd a (.insertCaptured e)).world =
      a.world.map (fun r => if r.id = e then { r with captured := true } else r) from rfl]
    rw [idsOf_map_of_id_eq _ _ (fun r => by by_cases h : r.id = e <;> simp [h])]
  | trigger e width height rgba =>
    have hw : (applyCmd a (.trigger e width height rgba)).world = a.world := by
      simp only [applyCmd]
      split <;> rfl
    rw [hw]
  | despawn e =>
    by_cases h : a.world.any (fun r => r.id = e) = true
    · rw [show (applyCmd a (.despawn e)).world =
        a.world.filter (fun r => r.id ≠ e) by simp [applyCmd, h]]
      exact (List.filter_sublist a.world).map Req.id
    · rw [show (applyCmd a (.despawn e)).world = a.world by simp [applyCmd, h]]

lemma idsOf_applyCmds (a : CoordState) (cs : List Cmd) :
    List.Sublist (idsOf (applyCmds a cs).world) (idsOf a.world) := by
  induction cs generalizing a with
  | nil => exact List.Sublist.refl _
  | cons c rest ih =>
    exact List.Sublist.trans (ih (applyCmd a c)) (idsOf_applyCmd a c)

lemma events_applyCmd (a : CoordState) (c : Cmd) :
    ∃ t, (applyCmd a c).events = a.events ++ t ∧
      ∀ e ∈ t, e.entity ∈ idsOf a.world := by
  cases c with
  | insertCapturing e => exact ⟨[], by simp [applyCmd]⟩
  | removeCapturing e => exact ⟨[], by simp [applyCmd]⟩
  | insertCaptured e => exact ⟨[], by simp [applyCmd]⟩
  | trigger e width height rgba =>
    by_cases h : a.world.any (fun r => r.id = e) = true
    · refine ⟨[⟨e, width, height, rgba⟩], ?_, ?_⟩
      · simp [applyCmd, h]
      · intro ev hev
        rw [List.mem_singleton] at hev
        subst hev
        exact (any_id_eq _ _).mp h
    · exact ⟨[], by simp [applyCmd, h]⟩
  | despawn e =>
    by_cases h : a.world.any (fun r => r.id = e) = true
    · exact ⟨[], by simp [applyCmd, h]⟩
    · exact ⟨[], by simp [applyCmd, h]⟩

lemma events_applyCmds (a : CoordState) (cs : List Cmd) :
    ∃ t, (applyCmds a cs).events = a.events ++ t ∧
      ∀ e ∈ t, e.entity ∈ idsOf a.world := by
  induction cs generalizing a with
  | nil => exact ⟨[], by simp [applyCmds]⟩
  | cons c rest ih =>
    obtain ⟨t1, ht1, hl1⟩ := events_applyCmd a c
    obtain ⟨t2, ht2, hl2⟩ := ih (applyCmd a c)
    refine ⟨t1 ++ t2, ?_, ?_⟩
    · rw [show applyCmds a (c :: rest) = applyCmds (applyCmd a c) rest from rfl,
        ht2, ht1, List.append_assoc]
    · intro e he
      rcases List.mem_append.mp he with h | h
      · exact hl1 e h
      · exact (idsOf_applyCmd a c).mem (hl2 e h)

lemma removed_applyCmd (a : CoordState) (c : Cmd) :
    ∃ t, (applyCmd a c).removed = a.removed ++ t ∧
      ∀ i ∈ t, i ∈ idsOf a.world := by
  cases c with
  | insertCapturing e => exact ⟨[], by simp [applyCmd]⟩
  | removeCapturing e => exact ⟨[], by simp [applyCmd]⟩
  | insertCaptured e => exact ⟨[], by simp [applyCmd]⟩
  | trigger e width height rgba =>
    by_cases h : a.world.any (fun r => r.id = e) = true
    · exact ⟨[], by simp [applyCmd, h]⟩
    · exact ⟨[], by simp [applyCmd, h]⟩
  | despawn e =>
    by_cases h : a.world.any (fun r => r.id = e) = true
    · refine ⟨[e], by simp [applyCmd, h], ?_⟩
      intro i hi
      rw [List.mem_singleton] at hi
      subst hi
      exact (any_id_eq _ _).mp h
    · exact ⟨[], by simp [applyCmd, h]⟩

lemma removed_applyCmds (a : CoordState) (cs : List Cmd) :
    ∃ t, (applyCmds a cs).removed = a.removed ++ t ∧
      ∀ i ∈ t, i ∈ idsOf a.world := by
  induction cs generalizing a with
  | nil => exact ⟨[], by simp [applyCmds]⟩
  | cons c rest ih =>
    obtain ⟨t1, ht1, hl1⟩ := removed_applyCmd a c
    obtain ⟨t2, ht2, hl2⟩ := ih (applyCmd a c)
    refine ⟨t1 ++ t2, ?_, ?_⟩
    · rw [show applyCmds a (c :: rest) = applyCmds (applyCmd a c) rest from rfl,
        ht2, ht1, List.append_assoc]
    · intro i hi
      rcases List.mem_append.mp hi with h | h
      · exact hl1 i h
      · exact (idsOf_applyCmd a c).mem (hl2 i h)

/-- A request id never fires a completion event while its record is absent
from the world: command application leaves the count of events for such an
id unchanged. -/
def countEv (i : Nat) (evs : List Event) : Nat := (evs.map Event.entity).count i

lemma countEv_applyCmds (a : CoordState) (cs : List Cmd) (i : Nat)
    (hi : i ∉ idsOf a.world) :
    countEv i (applyCmds a cs).events = countEv i a.events := by
  obtain ⟨t, ht, hl⟩ := events_applyCmds a cs
  rw [ht]
  unfold countEv
  rw [List.map_append, List.count_append]
  have hz : (t.map Event.entity).count i = 0 := by
    rw [List.count_eq_zero]
    intro hmem
    obtain ⟨e, he, hid⟩ := List.mem_map.mp hmem
    exact hi (hid ▸ hl e he)
  rw [hz, Nat.add_zero]

lemma removed_not_world_applyCmd (a : CoordState) (c : Cmd)
    (h : ∀ i ∈ a.removed, i ∉ idsOf a.world) :
    ∀ i ∈ (applyCmd a c).removed, i ∉ idsOf (applyCmd a c).world := by
  cases c with
  | insertCapturing e =>
    intro i hi
    rw [show (applyCmd a (.insertCapturing e)).removed = a.removed from rfl] at hi
    rw [show (applyCmd a (.insertCapturing e)).world =
      a.world.map (fun r => if r.id = e then { r with capturing := true } else r) from rfl,
      idsOf_map_of_id_eq _ _ (fun r => by by_cases hc : r.id = e <;> simp [hc])]
    exact h i hi
  | removeCapturing e =>
    intro i hi
    rw [show (applyCmd a (.removeCapturing e)).removed = a.removed from rfl] at hi
    rw [show (applyCmd a (.removeCapturing e)).world =
      a.world.map (fun r => if r.id = e then { r with capturing := false } else r) from rfl,
      idsOf_map_of_id_eq _ _ (fun r => by by_cases hc : r.id = e <;> simp [hc])]
    exact h i hi
  | insertCaptured e =>
    intro i hi
    rw [show (applyCmd a (.insertCaptured e)).removed = a.removed from rfl] at hi
    rw [show (applyCmd a (.insertCaptured e)).world =
      a.world.map (fun r => if r.id = e then { r with captured := true } else r) from rfl,
      idsOf_map_of_id_eq _ _ (fun r => by by_cases hc : r.id = e <;> simp [hc])]
    exact h i hi
  | trigger e width height rgba =>
    intro i hi
    have hr : (applyCmd a (.trigger e width height rgba)).removed = a.removed := by
      simp only [applyCmd]
      split <;> rfl
    have hw : (applyCmd a (.trigger e width height rgba)).world = a.world := by
      simp only [applyCmd]
      split <;> rfl
    rw [hr] at hi
    rw [hw]
    exact h i hi
  | despawn e =>
    intro i hi
    by_cases hl : a.world.any (fun r => r.id = e) = true
    · rw [show (applyCmd a (.despawn e)).removed = a.removed ++ [e] by simp [applyCmd, hl]] at hi
      rw [show (applyCmd a (.despawn e)).world =
        a.world.filter (fun r => r.id ≠ e) by simp [applyCmd, hl]]
      rcases List.mem_append.mp hi with hold | hnew
      · intro hmem
        exact h i hold (((List.filter_sublist a.world).map Req.id).mem hmem)
      · rw [List.mem_singleton] at hnew
        subst hnew
        exact not_mem_idsOf_filter_ne a.world i
    · rw [show applyCmd a (.despawn e) = a by simp [applyCmd, hl]] at hi ⊢
      exact h i hi

lemma removed_not_world_applyCmds (a : CoordState) (cs : List Cmd)
    (h : ∀ i ∈ a.removed, i ∉ idsOf a.world) :
    ∀ i ∈ (applyCmds a cs).removed, i ∉ idsOf (applyCmds a cs).world := by
  induction cs generalizing a with
  | nil => exact h
  | cons c rest ih => exact ih (applyCmd a c) (removed_not_world_applyCmd a c h)

/-! ## The effect of one polled message -/

/-- The completion events `poll_captures` fires for one received message
over a given world: exactly one event — carrying the message's payload —
when the result is a success and the request record is still live, and none
otherwise. -/
def msgEvents (m : CaptureMsg) (w : List Req) : List Event :=
  match m with
  | (i, .ok (width, height, rgba)) =>
    if i ∈ idsOf w then [⟨i, width, height, rgba⟩] else []
  | (_, .error _) => []

/-- The world after the `remove::<Capturing>()` and `insert(Captured)`
marker commands of the success branch have been applied to record `i`. -/
def marked (w : List Req) (i : Nat) : List Req :=
  (w.map (fun r => if r.id = i then { r with capturing := false } else r)).map
    (fun r => if r.id = i then { r with captured := true } else r)

lemma idsOf_marked (w : List Req) (i : Nat) : idsOf (marked w i) = idsOf w := by
  unfold marked
  rw [idsOf_map_of_id_eq _ _ (fun r => by by_cases h : r.id = i <;> simp [h]),
    idsOf_map_of_id_eq _ _ (fun r => by by_cases h : r.id = i <;> simp [h])]

lemma filter_marked (w : List Req) (i : Nat) :
    (marked w i).filter (fun r => r.id ≠ i) = w.filter (fun r => r.id ≠ i) := by
  unfold marked
  rw [filter_ne_map_upd _ _ _ (fun r => by simp),
    filter_ne_map_upd _ _ _ (fun r => by simp)]

lemma marked_of_not_mem (w : List Req) (i : Nat) (hl : i ∉ idsOf w) :
    marked w i = w := by
  unfold marked
  rw [map_upd_of_not_mem _ _ _ hl, map_upd_of_not_mem _ _ _ hl]

/-- Master lemma: applying the commands `poll_captures` enqueues for one
message removes the record (if it was live), appends `msgEvents`, and
records the removal. -/
lemma applyCmds_msgCmds (a : CoordState) (m : CaptureMsg) :
    applyCmds a (msgCmds m) =
      ⟨a.world.filter (fun r => r.id ≠ m.1),
       a.events ++ msgEvents m a.world,
       a.removed ++ (if m.1 ∈ idsOf a.world then [m.1] else [])⟩ := by
  obtain ⟨i, res⟩ := m
  cases res with
  | error e =>
    by_cases hl : i ∈ idsOf a.world
    · have hany : a.world.any (fun r => r.id = i) = true := (any_id_eq _ _).mpr hl
      show applyCmd a (.despawn i) = _
      simp only [applyCmd, hany, if_true, msgEvents, if_pos hl]
      simp
    · have hany : ¬(a.world.any (fun r => r.id = i) = true) :=
        fun h => hl ((any_id_eq _ _).mp h)
      show applyCmd a (.despawn i) = _
      simp only [applyCmd, hany, if_false, msgEvents, if_neg hl]
      rw [filter_ne_of_not_mem a.world i hl]
      simp
  | ok payload =>
    obtain ⟨width, height, rgba⟩ := payload
    have pre : applyCmds a (msgCmds (i, .ok (width, height, rgba))) =
        applyCmd (applyCmd ⟨marked a.world i, a.events, a.removed⟩
          (.trigger i width height rgba)) (.despawn i) := rfl
    rw [pre]
    by_cases hl : i ∈ idsOf a.world
    · have hany : ((marked a.world i).any (fun r => r.id = i)) = true := by
        rw [any_id_eq, idsOf_marked]; exact hl
      have st : applyCmd (⟨marked a.world i, a.events, a.removed⟩ : CoordState)
          (.trigger i width height rgba) =
          ⟨marked a.world i, a.events ++ [⟨i, width, height, rgba⟩], a.removed⟩ := by
        simp only [applyCmd, hany, if_true]
      rw [st]
      simp only [applyCmd, hany, if_true, msgEvents, if_pos hl]
      rw [filter_marked]
    · have hany : ¬(((marked a.world i).any (fun r => r.id = i)) = true) := by
        rw [any_id_eq, idsOf_marked]; exact hl
      have st : applyCmd (⟨marked a.world i, a.events, a.removed⟩ : CoordState)
          (.trigger i width height rgba) =
          ⟨marked a.world i, a.events, a.removed⟩ := by
        simp only [applyCmd, hany, if_false]
        simp
      rw [st]
      simp only [applyCmd, hany, if_false, msgEvents, if_neg hl]
      rw [marked_of_not_mem _ _ hl, filter_ne_of_not_mem a.world i hl]
      simp

lemma applyCmds_append (a : CoordState) (cs ds : List Cmd) :
    applyCmds a (cs ++ ds) = applyCmds (applyCmds a cs) ds :=
  List.foldl_append _ _ _ _

lemma poll_captures_cons (m : CaptureMsg) (rest : List CaptureMsg) :
    (poll_captures (m :: rest)).cmds = msgCmds m ++ (poll_captures rest).cmds := rfl

/-- The world that survives a whole poll run: exactly the records whose id
got no message. -/
lemma pollApply_world (a : CoordState) (q : List CaptureMsg) :
    (applyCmds a ((poll_captures q).cmds)).world =
      a.world.filter (fun r => r.id ∉ q.map Prod.fst) := by
  induction q generalizing a with
  | nil =>
    show a.world = _
    symm
    apply List.filter_eq_self.mpr
    intro r _
    simp
  | cons m rest ih =>
    rw [poll_captures_cons, applyCmds_append, applyCmds_msgCmds, ih]
    show (a.world.filter (fun r => r.id ≠ m.1)).filter
        (fun r => r.id ∉ rest.map Prod.fst) = _
    rw [List.filter_filter]
    apply List.filter_congr
    intro r _
    by_cases h1 : r.id = m.1 <;> by_cases h2 : r.id ∈ rest.map Prod.fst <;>
      simp [h1, h2]

/-- The events appended by a whole poll run: each fired for a message id
whose record was live, and pairwise distinct when the message ids are. -/
lemma pollApply_events (a : CoordState) (q : List CaptureMsg) :
    ∃ t, (applyCmds a ((poll_captures q).cmds)).events = a.events ++ t ∧
      (∀ e ∈ t, e.entity ∈ q.map Prod.fst ∧ e.entity ∈ idsOf a.world) ∧
      ((q.map Prod.fst).Nodup → (t.map Event.entity).Nodup) := by
  induction q generalizing a with
  | nil => exact ⟨[], by simp [poll_captures, applyCmds], by simp, by simp⟩
  | cons m rest ih =>
    obtain ⟨t2, ht2, hmem2, hnd2⟩ := ih (applyCmds a (msgCmds m))
    refine ⟨msgEvents m a.world ++ t2, ?_, ?_, ?_⟩
    · rw [poll_captures_cons, applyCmds_append, ht2, applyCmds_msgCmds,
        List.append_assoc]
    · intro e he
      rcases List.mem_append.mp he with h | h
      · obtain ⟨i, res⟩ := m
        cases res with
        | error er => simp [msgEvents] at h
        | ok payload =>
          obtain ⟨width, height, rgba⟩ := payload
          by_cases hl : i ∈ idsOf a.world
          · simp only [msgEvents, if_pos hl, List.mem_singleton] at h
            subst h
            exact ⟨by simp, hl⟩
          · simp [msgEvents, if_neg hl] at h
      · have h1 := hmem2 e h
        rw [applyCmds_msgCmds] at h1
        refine ⟨List.mem_cons_of_mem _ h1.1, ?_⟩
        have : e.entity ∈ idsOf (a.world.filter (fun r => r.id ≠ m.1)) := h1.2
        exact ((List.filter_sublist a.world).map Req.id).mem this
    · intro hq
      rw [List.map_cons, List.nodup_cons] at hq
      rw [List.map_append, List.nodup_append]
      refine ⟨?_, hnd2 hq.2, ?_⟩
      · obtain ⟨i, res⟩ := m
        cases res with
        | error er => simp [msgEvents]
        | ok payload =>
          obtain ⟨width, height, rgba⟩ := payload
          by_cases hl : i ∈ idsOf a.world <;> simp [msgEvents, hl]
      · intro x hx hx2
        obtain ⟨ex, hex, hexe⟩ := List.mem_map.mp hx
        obtain ⟨ey, hey, heye⟩ := List.mem_map.mp hx2
        have hy1 : x ∈ rest.map Prod.fst := by
          have hmm := (hmem2 ey hey).1
          rw [heye] at hmm
          exact hmm
        have hx1 : x = m.1 := by
          obtain ⟨i, res⟩ := m
          cases res with
          | error er => simp [msgEvents] at hex
          | ok payload =>
            obtain ⟨width, height, rgba⟩ := payload
            by_cases hl : i ∈ idsOf a.world
            · simp only [msgEvents, if_pos hl, List.mem_singleton] at hex
              subst hex
              simpa using hexe.symm
            · simp [msgEvents, if_neg hl] at hex
        rw [hx1] at hy1
        exact hq.1 hy1

/-- Every command the dispatch system enqueues is an `insertCapturing` or a
`despawn`. -/
lemma dispatch_cmds_shape (handles : Nat → Option RawWindowHandle)
    (titles : Nat → Option String) (rs : List Req) :
    ∀ c ∈ (dispatch_captures handles titles rs).cmds,
      (∃ e, c = Cmd.insertCapturing e) ∨ (∃ e, c = Cmd.despawn e) := by
  induction rs with
  | nil => intro c hc; simp [dispatch_captures] at hc
  | cons r rest ih =>
    intro c hc
    rw [show (dispatch_captures handles titles (r :: rest)).cmds =
      (reqDispatch handles titles r).cmds ++
        (dispatch_captures handles titles rest).cmds from rfl] at hc
    rcases List.mem_append.mp hc with h | h
    · unfold reqDispatch at h
      cases hht : handles r.target with
      | none =>
        rw [hht] at h
        have hc2 : c = Cmd.despawn r.id := by simpa using h
        exact Or.inr ⟨r.id, hc2⟩
      | some hh =>
        rw [hht] at h
        have hc2 : c = Cmd.insertCapturing r.id := by simpa using h
        exact Or.inl ⟨r.id, hc2⟩
    · exact ih c h

/-- Commands of that shape never touch the event list. -/
lemma events_applyCmds_shape (a : CoordState) (cs : List Cmd)
    (hshape : ∀ c ∈ cs, (∃ e, c = Cmd.insertCapturing e) ∨ (∃ e, c = Cmd.despawn e)) :
    (applyCmds a cs).events = a.events := by
  induction cs generalizing a with
  | nil => rfl
  | cons c rest ih =>
    have hc := hshape c (List.mem_cons_self _ _)
    have h1 : (applyCmd a c).events = a.events := by
      rcases hc with ⟨e, he⟩ | ⟨e, he⟩
      · subst he; rfl
      · subst he
        simp only [applyCmd]
        split <;> rfl
    rw [show applyCmds a (c :: rest) = applyCmds (applyCmd a c) rest from rfl,
      ih (applyCmd a c) (fun d hd => hshape d (List.mem_cons_of_mem _ hd)), h1]

/-- A per-record property that the `Capturing`-marker updates cannot break
survives commands of the dispatch shape and, more generally, any command
list that contains no `insertCaptured` and no other record constructor. -/
lemma world_pred_applyCmds_shape (a : CoordState) (cs : List Cmd)
    (P : Req → Prop)
    (hshape : ∀ c ∈ cs, (∃ e, c = Cmd.insertCapturing e) ∨ (∃ e, c = Cmd.despawn e))
    (hP : ∀ (r : Req) (b : Bool), P r → P { r with capturing := b })
    (h : ∀ r ∈ a.world, P r) :
    ∀ r ∈ (applyCmds a cs).world, P r := by
  induction cs generalizing a with
  | nil => exact h
  | cons c rest ih =>
    have hc := hshape c (List.mem_cons_self _ _)
    have h1 : ∀ r ∈ (applyCmd a c).world, P r := by
      rcases hc with ⟨e, he⟩ | ⟨e, he⟩
      · subst he
        intro r hr
        obtain ⟨r0, hr0, hr0e⟩ := List.mem_map.mp hr
        subst hr0e
        by_cases hid : r0.id = e
        · rw [if_pos hid]
          exact hP r0 true (h r0 hr0)
        · rw [if_neg hid]
          exact h r0 hr0
      · subst he
        intro r hr
        have hw : (applyCmd a (.despawn e)).world = a.world ∨
            (applyCmd a (.despawn e)).world = a.world.filter (fun r => r.id ≠ e) := by
          simp only [applyCmd]
          split
          · exact Or.inr rfl
          · exact Or.inl rfl
        rcases hw with hw | hw
        · exact h r (hw ▸ hr)
        · exact h r (List.mem_of_mem_filter (hw ▸ hr))
    exact ih (applyCmd a c) (fun d hd => hshape d (List.mem_cons_of_mem _ hd)) h1

/-- The worker spawns of one dispatch run target (a subset of) the
processed requests, in order. -/
lemma dispatch_spawns_sublist (handles : Nat → Option RawWindowHandle)
    (titles : Nat → Option String) (rs : List Req) :
    List.Sublist ((dispatch_captures handles titles rs).spawns.map WorkerSpawn.reqId)
      (idsOf rs) := by
  induction rs with
  | nil => simp [dispatch_captures, idsOf]
  | cons r rest ih =>
    rw [show (dispatch_captures handles titles (r :: rest)).spawns =
      (reqDispatch handles titles r).spawns ++
        (dispatch_captures handles titles rest).spawns from rfl]
    unfold reqDispatch
    cases handles r.target with
    | none =>
      simp only [List.nil_append, List.map]
      exact List.Sublist.cons _ ih
    | some hh =>
      simp only [List.cons_append, List.nil_append, List.map_cons]
      exact List.Sublist.cons₂ _ ih

/-! ## The per-identity invariants of the composed system -/

lemma map_filter_ne {α : Type} (f : α → Nat) (l : List α) (i : Nat) :
    (l.filter (fun x => f x ≠ i)).map f = (l.map f).filter (fun n => n ≠ i) := by
  induction l with
  | nil => rfl
  | cons x xs ih =>
    by_cases h : f x = i
    · rw [List.filter_cons, List.map_cons, List.filter_cons,
        decide_eq_false (show ¬(f x ≠ i) by simp [h]),
        if_neg Bool.false_ne_true, if_neg Bool.false_ne_true, ih]
    · rw [List.filter_cons, List.map_cons, List.filter_cons,
        decide_eq_true (show f x ≠ i from h), if_pos rfl, if_pos rfl,
        List.map_cons, ih]

lemma not_mem_idsOf_filter_not_mem (w : List Req) (ms : List Nat) (x : Nat)
    (hx : x ∈ ms) : x ∉ idsOf (w.filter (fun r => r.id ∉ ms)) := by
  simp only [idsOf, List.mem_map, List.mem_filter, decide_eq_true_eq]
  rintro ⟨r, ⟨_, hnm⟩, hid⟩
  exact hnm (hid ▸ hx)

/-- The ids currently travelling the worker pipeline — running workers,
channel messages, and messages already drained. -/
def chainIds (s : SysState) : List Nat :=
  s.pending.map WorkerSpawn.reqId ++ s.queue.map Prod.fst ++ s.consumed

/-- Reachable-state invariant of the composed system.  It ties the
freshness discipline of the host world's entity allocator (`nextId`) to the
single-worker and single-message discipline of the coordinator. -/
structure Inv (s : SysState) : Prop where
  world_nodup : (idsOf s.world).Nodup
  world_lt : ∀ i ∈ idsOf s.world, i < s.nextId
  chain_lt : ∀ i ∈ chainIds s, i < s.nextId
  launched_lt : ∀ i ∈ s.launched, i < s.nextId
  events_lt : ∀ i ∈ s.events.map Event.entity, i < s.nextId
  removed_lt : ∀ i ∈ s.removed, i < s.nextId
  chain_nodup : (chainIds s).Nodup
  chain_launched : ∀ i ∈ chainIds s, i ∈ s.launched
  launched_nodup : s.launched.Nodup
  new_not_launched : ∀ r ∈ s.world, r.isNew = true → r.id ∉ s.launched
  events_nodup : (s.events.map Event.entity).Nodup
  events_consumed : ∀ i ∈ s.events.map Event.entity, i ∈ s.consumed
  events_not_world : ∀ i ∈ s.events.map Event.entity, i ∉ idsOf s.world
  removed_not_world : ∀ i ∈ s.removed, i ∉ idsOf s.world

lemma inv_init : Inv initState := by
  constructor <;> simp [initState, chainIds, idsOf]

lemma inv_submit (s : SysState) (t : Nat) (hs : Inv s) : Inv (submitStep t s) := by
  have hworld : idsOf (submitStep t s).world = idsOf s.world ++ [s.nextId] := by
    simp [submitStep, idsOf]
  constructor
  case world_nodup =>
    rw [hworld, List.nodup_append]
    refine ⟨hs.world_nodup, List.nodup_singleton _, ?_⟩
    intro a ha hb
    rw [List.mem_singleton] at hb
    exact absurd (hb ▸ hs.world_lt a ha) (lt_irrefl _)
  case world_lt =>
    intro i hi
    rw [hworld] at hi
    rcases List.mem_append.mp hi with h | h
    · exact Nat.lt_succ_of_lt (hs.world_lt i h)
    · rw [List.mem_singleton.mp h]; exact Nat.lt_succ_self _
  case chain_lt =>
    intro i hi
    exact Nat.lt_succ_of_lt (hs.chain_lt i hi)
  case launched_lt =>
    intro i hi
    exact Nat.lt_succ_of_lt (hs.launched_lt i hi)
  case events_lt =>
    intro i hi
    exact Nat.lt_succ_of_lt (hs.events_lt i hi)
  case removed_lt =>
    intro i hi
    exact Nat.lt_succ_of_lt (hs.removed_lt i hi)
  case chain_nodup => exact hs.chain_nodup
  case chain_launched => exact hs.chain_launched
  case launched_nodup => exact hs.launched_nodup
  case new_not_launched =>
    intro r hr hnew
    rcases List.mem_append.mp hr with h | h
    · exact hs.new_not_launched r h hnew
    · rw [List.mem_singleton.mp h]
      intro hmem
      exact absurd (hs.launched_lt s.nextId hmem) (lt_irrefl _)
  case events_nodup => exact hs.events_nodup
  case events_consumed => exact hs.events_consumed
  case events_not_world =>
    intro i hi
    rw [hworld]
    intro hmem
    rcases List.mem_append.mp hmem with h | h
    · exact hs.events_not_world i hi h
    · rw [List.mem_singleton.mp h] at hi
      exact absurd (hs.events_lt _ hi) (lt_irrefl _)
  case removed_not_world =>
    intro i hi
    rw [hworld]
    intro hmem
    rcases List.mem_append.mp hmem with h | h
    · exact hs.removed_not_world i hi h
    · rw [List.mem_singleton.mp h] at hi
      exact absurd (hs.removed_lt _ hi) (lt_irrefl _)

lemma inv_destroy (s : SysState) (i : Nat) (hs : Inv s) : Inv (destroyStep i s) := by
  unfold destroyStep
  by_cases h : s.world.any (fun r => r.id = i) = true
  case neg =>
    rw [if_neg h]
    exact hs
  case pos =>
    rw [if_pos h]
    have hsub : List.Sublist (idsOf (s.world.filter (fun r => r.id ≠ i))) (idsOf s.world) :=
      (List.filter_sublist s.world).map Req.id
    constructor
    case world_nodup => exact hs.world_nodup.sublist hsub
    case world_lt => exact fun j hj => hs.world_lt j (hsub.mem hj)
    case chain_lt => exact hs.chain_lt
    case launched_lt => exact hs.launched_lt
    case events_lt => exact hs.events_lt
    case removed_lt =>
      intro j hj
      rcases List.mem_append.mp hj with hh | hh
      · exact hs.removed_lt j hh
      · rw [List.mem_singleton.mp hh]
        exact hs.world_lt i ((any_id_eq _ _).mp h)
    case chain_nodup => exact hs.chain_nodup
    case chain_launched => exact hs.chain_launched
    case launched_nodup => exact hs.launched_nodup
    case new_not_launched =>
      exact fun r hr => hs.new_not_launched r (List.mem_of_mem_filter hr)
    case events_nodup => exact hs.events_nodup
    case events_consumed => exact hs.events_consumed
    case events_not_world =>
      exact fun j hj hmem => hs.events_not_world j hj (hsub.mem hmem)
    case removed_not_world =>
      intro j hj
      rcases List.mem_append.mp hj with hh | hh
      · exact fun hmem => hs.removed_not_world j hh (hsub.mem hmem)
      · rw [List.mem_singleton.mp hh]
        exact not_mem_idsOf_filter_ne s.world i

lemma chain_perm_move (P Q C : List Nat) (i : Nat) (hP : P.Nodup) (hiP : i ∈ P) :
    List.Perm (P.filter (fun n => n ≠ i) ++ (Q ++ [i]) ++ C) (P ++ Q ++ C) := by
  have perm1 : List.Perm P (i :: P.filter (fun n => n ≠ i)) := by
    have h1 := List.perm_cons_erase hiP
    rw [hP.erase_eq_filter] at h1
    have hpred : P.filter (fun x => x != i) = P.filter (fun n => n ≠ i) :=
      List.filter_congr (fun x _ => by by_cases h : x = i <;> simp [h])
    rwa [hpred] at h1
  have stepA : P.filter (fun n => n ≠ i) ++ (Q ++ [i]) ++ C =
      (P.filter (fun n => n ≠ i) ++ Q) ++ (i :: C) := by
    rw [← List.append_assoc, List.append_assoc, List.singleton_append]
  have permNew : List.Perm ((P.filter (fun n => n ≠ i) ++ Q) ++ (i :: C))
      (i :: ((P.filter (fun n => n ≠ i) ++ Q) ++ C)) := List.perm_middle
  have permOld : List.Perm (P ++ Q ++ C)
      (i :: ((P.filter (fun n => n ≠ i) ++ Q) ++ C)) :=
    (perm1.append_right Q).append_right C
  rw [stepA]
  exact permNew.trans permOld.symm

lemma inv_finish (os : TargetOS) (s : SysState) (i : Nat)
    (enumRes : Except String (List XcapWindow)) (hs : Inv s) :
    Inv (finishStep os i enumRes s) := by
  unfold finishStep
  cases hf : s.pending.find? (fun wk => wk.reqId = i) with
  | none => exact hs
  | some wk =>
    have hwk_mem : wk ∈ s.pending := List.mem_of_find?_eq_some hf
    have hwk_id : wk.reqId = i := by
      have hp := List.find?_some hf
      simpa using hp
    have hiP : i ∈ s.pending.map WorkerSpawn.reqId :=
      List.mem_map.mpr ⟨wk, hwk_mem, hwk_id⟩
    have hPnd : (s.pending.map WorkerSpawn.reqId).Nodup :=
      hs.chain_nodup.of_append_left.of_append_left
    have hchain : List.Perm
        (chainIds { s with
          pending := s.pending.filter (fun wk => wk.reqId ≠ i),
          queue := s.queue ++ [(i, capture_window os enumRes wk.handle wk.title)] })
        (chainIds s) := by
      show List.Perm
        ((s.pending.filter (fun wk => wk.reqId ≠ i)).map WorkerSpawn.reqId ++
          (s.queue ++ [(i, capture_window os enumRes wk.handle wk.title)]).map Prod.fst ++
          s.consumed)
        (chainIds s)
      rw [map_filter_ne, List.map_append]
      exact chain_perm_move _ _ _ i hPnd hiP
    constructor
    case world_nodup => exact hs.world_nodup
    case world_lt => exact hs.world_lt
    case chain_lt => exact fun j hj => hs.chain_lt j (hchain.mem_iff.mp hj)
    case launched_lt => exact hs.launched_lt
    case events_lt => exact hs.events_lt
    case removed_lt => exact hs.removed_lt
    case chain_nodup => exact hchain.nodup_iff.mpr hs.chain_nodup
    case chain_launched => exact fun j hj => hs.chain_launched j (hchain.mem_iff.mp hj)
    case launched_nodup => exact hs.launched_nodup
    case new_not_launched => exact hs.new_not_launched
    case events_nodup => exact hs.events_nodup
    case events_consumed => exact hs.events_consumed
    case events_not_world => exact hs.events_not_world
    case removed_not_world => exact hs.removed_not_world

lemma dispatchStep_eq (handles : Nat → Option RawWindowHandle)
    (titles : Nat → Option String) (s : SysState) :
    dispatchStep handles titles s =
      { s with
        world := (applyCmds
          ⟨s.world.map (fun r => { r with isNew := false }), s.events, s.removed⟩
          (dispatch_captures handles titles (s.world.filter (fun r => r.isNew))).cmds).world,
        events := (applyCmds
          ⟨s.world.map (fun r => { r with isNew := false }), s.events, s.removed⟩
          (dispatch_captures handles titles (s.world.filter (fun r => r.isNew))).cmds).events,
        removed := (applyCmds
          ⟨s.world.map (fun r => { r with isNew := false }), s.events, s.removed⟩
          (dispatch_captures handles titles (s.world.filter (fun r => r.isNew))).cmds).removed,
        pending := s.pending ++
          (dispatch_captures handles titles (s.world.filter (fun r => r.isNew))).spawns,
        launched := s.launched ++
          (dispatch_captures handles titles
            (s.world.filter (fun r => r.isNew))).spawns.map WorkerSpawn.reqId } := rfl

lemma inv_dispatch (handles : Nat → Option RawWindowHandle)
    (titles : Nat → Option String) (s : SysState) (hs : Inv s) :
    Inv (dispatchStep handles titles s) := by
  rw [dispatchStep_eq]
  set fresh := s.world.filter (fun r => r.isNew) with hfresh
  set out := dispatch_captures handles titles fresh with hout
  set cleared := s.world.map (fun r => { r with isNew := false }) with hcleared
  set A := applyCmds ⟨cleared, s.events, s.removed⟩ out.cmds with hA
  have hshape := dispatch_cmds_shape handles titles fresh
  have hids_cleared : idsOf cleared = idsOf s.world :=
    idsOf_map_of_id_eq _ _ (fun r => rfl)
  have hAsub : List.Sublist (idsOf A.world) (idsOf s.world) := by
    have h1 := idsOf_applyCmds ⟨cleared, s.events, s.removed⟩ out.cmds
    rwa [show (⟨cleared, s.events, s.removed⟩ : CoordState).world = cleared from rfl,
      hids_cleared] at h1
  have hspawnfresh : List.Sublist (out.spawns.map WorkerSpawn.reqId) (idsOf fresh) :=
    dispatch_spawns_sublist handles titles fresh
  have hspawnsub : List.Sublist (out.spawns.map WorkerSpawn.reqId) (idsOf s.world) :=
    hspawnfresh.trans ((List.filter_sublist s.world).map Req.id)
  have hspawn_nodup : (out.spawns.map WorkerSpawn.reqId).Nodup :=
    hs.world_nodup.sublist hspawnsub
  have hspawn_new : ∀ j ∈ out.spawns.map WorkerSpawn.reqId, j ∉ s.launched := by
    intro j hj
    have hjf : j ∈ idsOf fresh := hspawnfresh.mem hj
    obtain ⟨r, hr, hrid⟩ := List.mem_map.mp hjf
    have hrw : r ∈ s.world := List.mem_of_mem_filter hr
    have hrnew : r.isNew = true := (List.mem_filter.mp hr).2
    exact hrid ▸ hs.new_not_launched r hrw hrnew
  have hevents : A.events = s.events :=
    events_applyCmds_shape ⟨cleared, s.events, s.removed⟩ out.cmds hshape
  obtain ⟨rt, hrt, hrtl⟩ := removed_applyCmds ⟨cleared, s.events, s.removed⟩ out.cmds
  have hrtl2 : ∀ i ∈ rt, i ∈ idsOf s.world := by
    intro i hi
    have h1 := hrtl i hi
    rwa [show (⟨cleared, s.events, s.removed⟩ : CoordState).world = cleared from rfl,
      hids_cleared] at h1
  have hAnew : ∀ r ∈ A.world, r.isNew = false := by
    refine world_pred_applyCmds_shape _ _ (fun r => r.isNew = false) hshape ?_ ?_
    · intro r b hr
      exact hr
    · intro r hr
      obtain ⟨r0, _, hr0e⟩ := List.mem_map.mp hr
      rw [← hr0e]
  have hperm : List.Perm
      ((s.pending ++ out.spawns).map WorkerSpawn.reqId ++ s.queue.map Prod.fst ++
        s.consumed)
      (out.spawns.map WorkerSpawn.reqId ++ chainIds s) := by
    rw [List.map_append]
    have h1 : List.Perm
        (s.pending.map WorkerSpawn.reqId ++ out.spawns.map WorkerSpawn.reqId)
        (out.spawns.map WorkerSpawn.reqId ++ s.pending.map WorkerSpawn.reqId) :=
      List.perm_append_comm
    have h2 := (h1.append_right (s.queue.map Prod.fst)).append_right s.consumed
    refine h2.trans ?_
    simp only [chainIds, List.append_assoc]
    exact List.Perm.refl _
  have hSdisjChain : ∀ j ∈ out.spawns.map WorkerSpawn.reqId, j ∉ chainIds s := by
    intro j hj hmem
    exact hspawn_new j hj (hs.chain_launched j hmem)
  constructor
  case world_nodup => exact hs.world_nodup.sublist hAsub
  case world_lt => exact fun j hj => hs.world_lt j (hAsub.mem hj)
  case chain_lt =>
    intro j hj
    have hj2 : j ∈ out.spawns.map WorkerSpawn.reqId ++ chainIds s := hperm.mem_iff.mp hj
    rcases List.mem_append.mp hj2 with h | h
    · exact hs.world_lt j (hspawnsub.mem h)
    · exact hs.chain_lt j h
  case launched_lt =>
    intro j hj
    rcases List.mem_append.mp hj with h | h
    · exact hs.launched_lt j h
    · exact hs.world_lt j (hspawnsub.mem h)
  case events_lt =>
    intro j hj
    rw [hevents] at hj
    exact hs.events_lt j hj
  case removed_lt =>
    intro j hj
    rw [hrt] at hj
    rcases List.mem_append.mp hj with h | h
    · exact hs.removed_lt j h
    · exact hs.world_lt j (hrtl2 j h)
  case chain_nodup =>
    refine hperm.nodup_iff.mpr ?_
    rw [List.nodup_append]
    exact ⟨hspawn_nodup, hs.chain_nodup, hSdisjChain⟩
  case chain_launched =>
    intro j hj
    have hj2 : j ∈ out.spawns.map WorkerSpawn.reqId ++ chainIds s := hperm.mem_iff.mp hj
    rcases List.mem_append.mp hj2 with h | h
    · exact List.mem_append_right _ h
    · exact List.mem_append_left _ (hs.chain_launched j h)
  case launched_nodup =>
    rw [List.nodup_append]
    refine ⟨hs.launched_nodup, hspawn_nodup, ?_⟩
    intro j hj hmem
    exact hspawn_new j hmem hj
  case new_not_launched =>
    intro r hr hnew
    rw [hAnew r hr] at hnew
    exact Bool.noConfusion hnew
  case events_nodup =>
    rw [hevents]
    exact hs.events_nodup
  case events_consumed =>
    intro j hj
    rw [hevents] at hj
    exact hs.events_consumed j hj
  case events_not_world =>
    intro j hj
    rw [hevents] at hj
    exact fun hmem => hs.events_not_world j hj (hAsub.mem hmem)
  case removed_not_world =>
    refine removed_not_world_applyCmds ⟨cleared, s.events, s.removed⟩ out.cmds ?_
    intro j hj
    rw [show (⟨cleared, s.events, s.removed⟩ : CoordState).world = cleared from rfl,
      hids_cleared]
    exact hs.removed_not_world j hj

lemma pollStep_eq (s : SysState) :
    pollStep s =
      { s with
        world := (applyCmds ⟨s.world, s.events, s.removed⟩
          (poll_captures s.queue).cmds).world,
        events := (applyCmds ⟨s.world, s.events, s.removed⟩
          (poll_captures s.queue).cmds).events,
        removed := (applyCmds ⟨s.world, s.events, s.removed⟩
          (poll_captures s.queue).cmds).removed,
        queue := [],
        consumed := s.consumed ++ s.queue.map Prod.fst } := rfl

lemma inv_poll (s : SysState) (hs : Inv s) : Inv (pollStep s) := by
  rw [pollStep_eq]
  set A := applyCmds ⟨s.world, s.events, s.removed⟩ (poll_captures s.queue).cmds with hA
  have hworld : A.world = s.world.filter (fun r => r.id ∉ s.queue.map Prod.fst) :=
    pollApply_world ⟨s.world, s.events, s.removed⟩ s.queue
  have hPQnodup : (s.pending.map WorkerSpawn.reqId ++ s.queue.map Prod.fst).Nodup :=
    hs.chain_nodup.of_append_left
  have hQnodup : (s.queue.map Prod.fst).Nodup := hPQnodup.of_append_right
  have hQC_disj : ∀ x ∈ s.queue.map Prod.fst, x ∉ s.consumed := by
    intro x hx hc
    exact (List.nodup_append.mp hs.chain_nodup).2.2
      (List.mem_append_right _ hx) hc
  obtain ⟨t, ht, htmem, htnd⟩ := pollApply_events ⟨s.world, s.events, s.removed⟩ s.queue
  have hworldsub : List.Sublist (idsOf A.world) (idsOf s.world) := by
    rw [hworld]
    exact (List.filter_sublist s.world).map Req.id
  obtain ⟨rt, hrt, hrtl⟩ := removed_applyCmds ⟨s.world, s.events, s.removed⟩
    (poll_captures s.queue).cmds
  have hperm : List.Perm
      (s.pending.map WorkerSpawn.reqId ++ List.map Prod.fst ([] : List CaptureMsg) ++
        (s.consumed ++ s.queue.map Prod.fst))
      (chainIds s) := by
    simp only [chainIds, List.map_nil, List.append_nil, List.append_assoc]
    exact List.Perm.append_left _ List.perm_append_comm
  constructor
  case world_nodup => exact hs.world_nodup.sublist hworldsub
  case world_lt => exact fun j hj => hs.world_lt j (hworldsub.mem hj)
  case chain_lt =>
    intro j hj
    exact hs.chain_lt j (hperm.mem_iff.mp hj)
  case launched_lt => exact hs.launched_lt
  case events_lt =>
    intro j hj
    rw [ht, List.map_append] at hj
    rcases List.mem_append.mp hj with h | h
    · exact hs.events_lt j h
    · obtain ⟨e, he, hee⟩ := List.mem_map.mp h
      have h2 := (htmem e he).1
      rw [hee] at h2
      exact hs.chain_lt j (List.mem_append_left _ (List.mem_append_right _ h2))
  case removed_lt =>
    intro j hj
    rw [hrt] at hj
    rcases List.mem_append.mp hj with h | h
    · exact hs.removed_lt j h
    · exact hs.world_lt j (hrtl j h)
  case chain_nodup => exact hperm.nodup_iff.mpr hs.chain_nodup
  case chain_launched =>
    intro j hj
    exact hs.chain_launched j (hperm.mem_iff.mp hj)
  case launched_nodup => exact hs.launched_nodup
  case new_not_launched =>
    intro r hr hnew
    rw [hworld] at hr
    exact hs.new_not_launched r (List.mem_of_mem_filter hr) hnew
  case events_nodup =>
    rw [ht, List.map_append, List.nodup_append]
    refine ⟨hs.events_nodup, htnd hQnodup, ?_⟩
    intro x hx hx2
    obtain ⟨e, he, hee⟩ := List.mem_map.mp hx2
    have hq : x ∈ s.queue.map Prod.fst := hee ▸ (htmem e he).1
    exact hQC_disj x hq (hs.events_consumed x hx)
  case events_consumed =>
    intro j hj
    rw [ht, List.map_append] at hj
    rcases List.mem_append.mp hj with h | h
    · exact List.mem_append_left _ (hs.events_consumed j h)
    · obtain ⟨e, he, hee⟩ := List.mem_map.mp h
      exact List.mem_append_right _ (hee ▸ (htmem e he).1)
  case events_not_world =>
    intro j hj
    rw [ht, List.map_append] at hj
    rcases List.mem_append.mp hj with h | h
    · exact fun hmem => hs.events_not_world j h (hworldsub.mem hmem)
    · obtain ⟨e, he, hee⟩ := List.mem_map.mp h
      rw [hworld]
      exact not_mem_idsOf_filter_not_mem _ _ _ (hee ▸ (htmem e he).1)
  case removed_not_world =>
    refine removed_not_world_applyCmds ⟨s.world, s.events, s.removed⟩
      (poll_captures s.queue).cmds ?_
    exact hs.removed_not_world

lemma inv_step (os : TargetOS) (s : SysState) (a : Action) (hs : Inv s) :
    Inv (step os s a) := by
  cases a with
  | submit t => exact inv_submit s t hs
  | destroy i => exact inv_destroy s i hs
  | finish i enumRes => exact inv_finish os s i enumRes hs
  | dispatchSys handles titles => exact inv_dispatch handles titles s hs
  | pollSys => exact inv_poll s hs

lemma inv_foldl (os : TargetOS) (acts : List Action) (s : SysState) (hs : Inv s) :
    Inv (acts.foldl (step os) s) := by
  induction acts generalizing s with
  | nil => exact hs
  | cons a rest ih => exact ih (step os s a) (inv_step os s a hs)

lemma inv_run (os : TargetOS) (acts : List Action) : Inv (run os acts) :=
  inv_foldl os acts initState inv_init

lemma run_append (os : TargetOS) (acts more : List Action) :
    run os (acts ++ more) = more.foldl (step os) (run os acts) := by
  unfold run
  rw [List.foldl_append]

lemma removed_step_mono (os : TargetOS) (s : SysState) (a : Action) (i : Nat)
    (hi : i ∈ s.removed) : i ∈ (step os s a).removed := by
  cases a with
  | submit t => exact hi
  | destroy j =>
    show i ∈ (destroyStep j s).removed
    unfold destroyStep
    split
    · exact List.mem_append_left _ hi
    · exact hi
  | finish j enumRes =>
    show i ∈ (finishStep os j enumRes s).removed
    unfold finishStep
    cases s.pending.find? (fun wk => wk.reqId = j) with
    | none => exact hi
    | some wk => exact hi
  | dispatchSys handles titles =>
    show i ∈ (dispatchStep handles titles s).removed
    rw [dispatchStep_eq]
    obtain ⟨rt, hrt, _⟩ := removed_applyCmds
      ⟨s.world.map (fun r => { r with isNew := false }), s.events, s.removed⟩
      (dispatch_captures handles titles (s.world.filter (fun r => r.isNew))).cmds
    rw [show ({ s with
        world := _, events := _, removed := (applyCmds
          ⟨s.world.map (fun r => { r with isNew := false }), s.events, s.removed⟩
          (dispatch_captures handles titles (s.world.filter (fun r => r.isNew))).cmds).removed,
        pending := _, launched := _ } : SysState).removed = (applyCmds
          ⟨s.world.map (fun r => { r with isNew := false }), s.events, s.removed⟩
          (dispatch_captures handles titles (s.world.filter (fun r => r.isNew))).cmds).removed
      from rfl, hrt]
    exact List.mem_append_left _ hi
  | pollSys =>
    show i ∈ (pollStep s).removed
    rw [pollStep_eq]
    obtain ⟨rt, hrt, _⟩ := removed_applyCmds ⟨s.world, s.events, s.removed⟩
      (poll_captures s.queue).cmds
    rw [show ({ s with
        world := _, events := _, removed := (applyCmds ⟨s.world, s.events, s.removed⟩
          (poll_captures s.queue).cmds).removed,
        queue := [], consumed := _ } : SysState).removed =
        (applyCmds ⟨s.world, s.events, s.removed⟩
          (poll_captures s.queue).cmds).removed from rfl, hrt]
    exact List.mem_append_left _ hi

lemma countEv_step_of_removed (os : TargetOS) (s : SysState) (a : Action) (i : Nat)
    (hs : Inv s) (hi : i ∈ s.removed) :
    countEv i (step os s a).events = countEv i s.events := by
  cases a with
  | submit t => rfl
  | destroy j =>
    show countEv i (destroyStep j s).events = _
    unfold destroyStep
    split <;> rfl
  | finish j enumRes =>
    show countEv i (finishStep os j enumRes s).events = _
    unfold finishStep
    cases s.pending.find? (fun wk => wk.reqId = j) with
    | none => rfl
    | some wk => rfl
  | dispatchSys handles titles =>
    show countEv i (dispatchStep handles titles s).events = _
    rw [dispatchStep_eq]
    have hevents := events_applyCmds_shape
      ⟨s.world.map (fun r => { r with isNew := false }), s.events, s.removed⟩
      (dispatch_captures handles titles (s.world.filter (fun r => r.isNew))).cmds
      (dispatch_cmds_shape handles titles _)
    show countEv i (applyCmds
      ⟨s.world.map (fun r => { r with isNew := false }), s.events, s.removed⟩
      (dispatch_captures handles titles (s.world.filter (fun r => r.isNew))).cmds).events = _
    rw [hevents]
  | pollSys =>
    show countEv i (pollStep s).events = _
    rw [pollStep_eq]
    show countEv i (applyCmds ⟨s.world, s.events, s.removed⟩
      (poll_captures s.queue).cmds).events = _
    exact countEv_applyCmds ⟨s.world, s.events, s.removed⟩ _ i
      (hs.removed_not_world i hi)

lemma countEv_foldl_of_removed (os : TargetOS) (i : Nat) (more : List Action)
    (s : SysState) (hs : Inv s) (hi : i ∈ s.removed) :
    countEv i (more.foldl (step os) s).events = countEv i s.events := by
  induction more generalizing s with
  | nil => rfl
  | cons a rest ih =>
    rw [List.foldl_cons,
      ih (step os s a) (inv_step os s a hs) (removed_step_mono os s a i hi),
      countEv_step_of_removed os s a i hs hi]

lemma noCaptured_step (os : TargetOS) (s : SysState) (a : Action)
    (h : noCaptured s.world) : noCaptured (step os s a).world := by
  cases a with
  | submit t =>
    show noCaptured (submitStep t s).world
    intro r hr
    rcases List.mem_append.mp hr with hh | hh
    · exact h r hh
    · rw [List.mem_singleton.mp hh]
  | destroy j =>
    show noCaptured (destroyStep j s).world
    unfold destroyStep
    split
    · exact fun r hr => h r (List.mem_of_mem_filter hr)
    · exact h
  | finish j enumRes =>
    show noCaptured (finishStep os j enumRes s).world
    unfold finishStep
    cases s.pending.find? (fun wk => wk.reqId = j) with
    | none => exact h
    | some wk => exact h
  | dispatchSys handles titles =>
    show noCaptured (dispatchStep handles titles s).world
    rw [dispatchStep_eq]
    refine world_pred_applyCmds_shape _ _ (fun r => r.captured = false)
      (dispatch_cmds_shape handles titles _) ?_ ?_
    · intro r b hr
      exact hr
    · intro r hr
      obtain ⟨r0, hr0, hr0e⟩ := List.mem_map.mp hr
      rw [← hr0e]
      exact h r0 hr0
  | pollSys =>
    show noCaptured (pollStep s).world
    rw [pollStep_eq]
    intro r hr
    rw [show ({ s with
        world := (applyCmds ⟨s.world, s.events, s.removed⟩
          (poll_captures s.queue).cmds).world,
        events := _, removed := _, queue := [], consumed := _ } : SysState).world =
      (applyCmds ⟨s.world, s.events, s.removed⟩
        (poll_captures s.queue).cmds).world from rfl,
      pollApply_world ⟨s.world, s.events, s.removed⟩ s.queue] at hr
    exact h r (List.mem_of_mem_filter hr)

lemma noCaptured_run (os : TargetOS) (acts : List Action) :
    noCaptured (run os acts).world := by
  have hgen : ∀ (more : List Action) (s : SysState), noCaptured s.world →
      noCaptured (more.foldl (step os) s).world := by
    intro more
    induction more with
    | nil => exact fun s hX => hX
    | cons a rest ih =>
      intro s hX
      exact ih (step os s a) (noCaptured_step os s a hX)
  refine hgen acts initState ?_
  intro r hr
  simp [initState] at hr

/-! ## The claims -/

/-- The numeric-id step of the locator yields no candidate: either the
handle exposes no numeric native window id, or no enumerated window carries
the target id. -/
def noIdCandidate (os : TargetOS) (allWindows : List XcapWindow)
    (raw : RawWindowHandle) : Prop :=
  ∀ tid, native_window_id os raw = some tid →
    allWindows.find? (fun w => w.id = some tid) = none

/-- C3: the locator follows the priority order: if the handle yields a
numeric native window id (Win32 HWND truncated to 32 bits, X11 window, XCB
window) and some enumerated window carries that id, the first such window
is captured; if the numeric step yields no candidate and a title snapshot
was provided, the first enumerated window whose title equals the snapshot
exactly is captured; otherwise the locator reports the not-found failure. -/
theorem C3_locator_priority (os : TargetOS) (allWindows : List XcapWindow)
    (raw : RawWindowHandle) (title : Option String) :
    (∀ tid w, native_window_id os raw = some tid →
      allWindows.find? (fun w0 => w0.id = some tid) = some w →
      capture_window os (.ok allWindows) raw title = capture_xcap_window w) ∧
    (∀ t w, noIdCandidate os allWindows raw → title = some t →
      allWindows.find? (fun w0 => w0.title = some t) = some w →
      capture_window os (.ok allWindows) raw title = capture_xcap_window w) ∧
    (noIdCandidate os allWindows raw →
      (∀ t, title = some t → allWindows.find? (fun w0 => w0.title = some t) = none) →
      capture_window os (.ok allWindows) raw title =
        .error ("No matching xcap window found")) := by
  refine ⟨?_, ?_, ?_⟩
  · intro tid w hid hfind
    simp only [capture_window, hid, hfind]
  · intro t w hnoid htitle hfind
    subst htitle
    cases hid : native_window_id os raw with
    | none => simp only [capture_window, hid, titleFallback, hfind]
    | some tid => simp only [capture_window, hid, hnoid tid hid, titleFallback, hfind]
  · intro hnoid hnotitle
    cases hid : native_window_id os raw with
    | none =>
      cases htitle : title with
      | none => simp only [capture_window, hid, titleFallback]
      | some t => simp only [capture_window, hid, titleFallback, hnotitle t htitle]
    | some tid =>
      cases htitle : title with
      | none => simp only [capture_window, hid, hnoid tid hid, titleFallback]
      | some t =>
        simp only [capture_window, hid, hnoid tid hid, titleFallback, hnotitle t htitle]

/-- Witness for C3: a two-window enumeration.  The id match takes priority
even though the title snapshot would match the other window; the title
fallback fires when the handle exposes no id; no title and no id yields the
not-found failure. -/
theorem C3_locator_priority_witness :
    capture_window .linux
        (.ok [⟨some 5, some ("a"), .ok ⟨1, 1, [1, 2, 3, 4]⟩⟩,
              ⟨some 6, some ("b"), .ok ⟨2, 1, [0, 0, 0, 0, 9, 9, 9, 9]⟩⟩])
        (.xcb 5) (some ("b")) =
      capture_xcap_window ⟨some 5, some ("a"), .ok ⟨1, 1, [1, 2, 3, 4]⟩⟩ ∧
    capture_window .macos
        (.ok [⟨some 5, some ("a"), .ok ⟨1, 1, [1, 2, 3, 4]⟩⟩,
              ⟨some 6, some ("b"), .ok ⟨2, 1, [0, 0, 0, 0, 9, 9, 9, 9]⟩⟩])
        .other (some ("b")) =
      capture_xcap_window ⟨some 6, some ("b"), .ok ⟨2, 1, [0, 0, 0, 0, 9, 9, 9, 9]⟩⟩ ∧
    capture_window .macos
        (.ok [⟨some 5, some ("a"), .ok ⟨1, 1, [1, 2, 3, 4]⟩⟩,
              ⟨some 6, some ("b"), .ok ⟨2, 1, [0, 0, 0, 0, 9, 9, 9, 9]⟩⟩])
        .other none =
      .error ("No matching xcap window found") :=
  ⟨(C3_locator_priority .linux _ (.xcb 5) (some ("b"))).1 5
      ⟨some 5, some ("a"), .ok ⟨1, 1, [1, 2, 3, 4]⟩⟩ (by decide) (by decide),
   (C3_locator_priority .macos _ .other (some ("b"))).2.1 "b"
      ⟨some 6, some ("b"), .ok ⟨2, 1, [0, 0, 0, 0, 9, 9, 9, 9]⟩⟩
      (fun tid h => Option.noConfusion h) rfl (by decide),
   (C3_locator_priority .macos _ .other none).2.2
      (fun tid h => Option.noConfusion h) (fun t h => Option.noConfusion h)⟩

/-- C10: when the numeric-id match locates a window but reading its pixels
fails, `capture_window` returns that capture failure immediately; the title
fallback is never attempted, whatever title snapshot is present. -/
theorem C10_capture_failure_skips_title_fallback (os : TargetOS)
    (allWindows : List XcapWindow) (raw : RawWindowHandle) (title : Option String)
    (tid : Nat) (w : XcapWindow) (e : String)
    (hid : native_window_id os raw = some tid)
    (hfind : allWindows.find? (fun w0 => w0.id = some tid) = some w)
    (hcap : w.capture = .error e) :
    capture_window os (.ok allWindows) raw title = .error ("Capture failed: " ++ e) := by
  simp only [capture_window, hid, hfind, capture_xcap_window, hcap]

/-- Witness for C10: the id-matched window fails to capture while the other
window matches the provided title and would capture fine; the failure is
returned, not the fallback capture. -/
theorem C10_witness :
    capture_window .linux
        (.ok [⟨some 5, some ("a"), .error ("boom")⟩,
              ⟨some 6, some ("b"), .ok ⟨1, 1, [7, 7, 7, 7]⟩⟩])
        (.xlib 5) (some ("b")) = .error ("Capture failed: boom") :=
  C10_capture_failure_skips_title_fallback .linux _ (.xlib 5) (some ("b")) 5
    ⟨some 5, some ("a"), .error ("boom")⟩ "boom" (by decide) (by decide) rfl

/-- C9: one `poll_captures` run processes every message currently available
on the channel, front first, and performs exactly `length + 1` calls to the
non-blocking `try_recv` — one successful receive per message plus the
single failed try that ends the loop; in particular an empty queue costs
one failed try, no commands and no warnings. -/
theorem C9_poll_drains_without_blocking (q : List CaptureMsg) :
    (poll_captures q).cmds = (q.map msgCmds).flatten ∧
    (poll_captures q).warns = (q.map msgWarns).flatten ∧
    (poll_captures q).tries = q.length + 1 ∧
    poll_captures [] = ⟨[], [], 1⟩ := by
  refine ⟨?_, ?_, ?_, rfl⟩
  · induction q with
    | nil => rfl
    | cons m rest ih => simp [poll_captures, ih]
  · induction q with
    | nil => rfl
    | cons m rest ih => simp [poll_captures, ih]
  · induction q with
    | nil => rfl
    | cons m rest ih => simp [poll_captures, ih]

lemma msgEvents_of_not_mem (m : CaptureMsg) (w : List Req) (hdead : m.1 ∉ idsOf w) :
    msgEvents m w = [] := by
  obtain ⟨i, res⟩ := m
  cases res with
  | error e => rfl
  | ok payload =>
    obtain ⟨width, height, rgba⟩ := payload
    simp only [msgEvents, if_neg hdead]

/-- C2: a worker message whose request record was destroyed before
completion is dropped whole when `poll_captures` receives it: applying its
commands leaves the world, the delivered events and the removal history
unchanged (no completion callback runs, and command application proceeds
normally — no crash), and the remaining messages of the same drain are
processed exactly as if the dropped message had not been there. -/
theorem C2_destroyed_record_message_dropped (a : CoordState) (m : CaptureMsg)
    (rest : List CaptureMsg) (hdead : m.1 ∉ idsOf a.world) :
    applyCmds a (msgCmds m) = a ∧
    applyCmds a ((poll_captures (m :: rest)).cmds) =
      applyCmds a ((poll_captures rest).cmds) := by
  have h1 : applyCmds a (msgCmds m) = a := by
    rw [applyCmds_msgCmds, filter_ne_of_not_mem a.world m.1 hdead, if_neg hdead,
      msgEvents_of_not_mem m a.world hdead]
    simp
  exact ⟨h1, by rw [poll_captures_cons, applyCmds_append, h1]⟩

/-- Witness for C2: a success message for the destroyed record 4 arrives
while record 9 is still live; the message is dropped and the drain goes on
to process record 9's message. -/
theorem C2_witness :
    (4 : Nat) ∉ idsOf [⟨9, 0, false, true, false⟩] ∧
    applyCmds ⟨[⟨9, 0, false, true, false⟩], [], []⟩
        (msgCmds (4, .ok (1, 1, [5, 5, 5, 5]))) =
      ⟨[⟨9, 0, false, true, false⟩], [], []⟩ :=
  ⟨by decide,
   (C2_destroyed_record_message_dropped ⟨[⟨9, 0, false, true, false⟩], [], []⟩
      (4, .ok (1, 1, [5, 5, 5, 5])) [] (by decide)).1⟩

/-- C4: a completion event is fired exactly for successful captures of live
records.  A request whose target carries no handle gets no worker and only
a `despawn` command plus a warning; it is retired in the same tick's
command flush while the other requests of the batch are processed
unchanged.  A failure message enqueues only a `despawn` and fires no event.
The events appended for one message are `msgEvents`, which is one event
when the result is a success (and the record is live) and empty on every
error. -/
theorem C4_events_iff_success :
    (∀ (handles : Nat → Option RawWindowHandle) (titles : Nat → Option String) (r : Req),
      handles r.target = none →
      reqDispatch handles titles r =
        ⟨[Cmd.despawn r.id], [],
          [("[bevy_xcap] Target entity " ++ toString r.target ++
            " has no RawHandleWrapper")]⟩) ∧
    (∀ (handles : Nat → Option RawWindowHandle) (titles : Nat → Option String)
        (r : Req) (rest : List Req),
      dispatch_captures handles titles (r :: rest) =
        ⟨(reqDispatch handles titles r).cmds ++
            (dispatch_captures handles titles rest).cmds,
         (reqDispatch handles titles r).spawns ++
            (dispatch_captures handles titles rest).spawns,
         (reqDispatch handles titles r).warns ++
            (dispatch_captures handles titles rest).warns⟩) ∧
    (∀ (a : CoordState) (e : Nat), e ∈ idsOf a.world →
      (applyCmds a [Cmd.despawn e]).world = a.world.filter (fun r => r.id ≠ e) ∧
      (applyCmds a [Cmd.despawn e]).events = a.events) ∧
    (∀ (a : CoordState) (m : CaptureMsg),
      (applyCmds a (msgCmds m)).events = a.events ++ msgEvents m a.world) ∧
    (∀ (i : Nat) (e : String) (w : List Req), msgEvents (i, .error e) w = []) := by
  refine ⟨?_, fun _ _ _ _ => rfl, ?_, ?_, fun _ _ _ => rfl⟩
  · intro handles titles r hnone
    unfold reqDispatch
    rw [hnone]
  · intro a e he
    have hany : a.world.any (fun r => r.id = e) = true := (any_id_eq _ _).mpr he
    constructor
    · show (applyCmd a (.despawn e)).world = _
      simp only [applyCmd, hany, if_true]
    · show (applyCmd a (.despawn e)).events = _
      simp only [applyCmd, hany, if_true]
  · intro a m
    rw [applyCmds_msgCmds]

/-- Witness for C4: a missing-handle request yields no spawn and a despawn
command, and applying that command retires the live record. -/
theorem C4_witness :
    reqDispatch (fun _ => none) (fun _ => none) ⟨3, 8, true, false, false⟩ =
      ⟨[Cmd.despawn 3], [],
        [("[bevy_xcap] Target entity " ++ toString (8 : Nat) ++
          " has no RawHandleWrapper")]⟩ ∧
    (applyCmds ⟨[⟨3, 8, true, false, false⟩], [], []⟩ [Cmd.despawn 3]).world = [] :=
  ⟨(C4_events_iff_success).1 (fun _ => none) (fun _ => none)
      ⟨3, 8, true, false, false⟩ rfl,
   by
    have h := (C4_events_iff_success).2.2.1 ⟨[⟨3, 8, true, false, false⟩], [], []⟩ 3
      (by decide)
    rw [h.1]
    decide⟩

/-- C8: for a successfully received result, `poll_captures` enqueues, in
order, the `Captured` transition (remove `Capturing`, insert `Captured`),
then the single completion event trigger, then the despawn; applying them
to a live record appends exactly one event and removes the record within
the same flush.  Consequently, across every action trace, no request record
is ever left carrying the `Captured` marker after a coordinator step — a
request never lingers in `Captured` across ticks. -/
theorem C8_success_order_then_retire :
    (∀ (e width height : Nat) (rgba : List Nat) (rest : List CaptureMsg),
      (poll_captures ((e, .ok (width, height, rgba)) :: rest)).cmds =
        Cmd.removeCapturing e :: Cmd.insertCaptured e ::
          Cmd.trigger e width height rgba :: Cmd.despawn e ::
          (poll_captures rest).cmds) ∧
    (∀ (a : CoordState) (e width height : Nat) (rgba : List Nat),
      e ∈ idsOf a.world →
      applyCmds a (msgCmds (e, .ok (width, height, rgba))) =
        ⟨a.world.filter (fun r => r.id ≠ e),
         a.events ++ [⟨e, width, height, rgba⟩],
         a.removed ++ [e]⟩) ∧
    (∀ (os : TargetOS) (acts : List Action), noCaptured (run os acts).world) := by
  refine ⟨fun _ _ _ _ _ => rfl, ?_, noCaptured_run⟩
  intro a e width height rgba hlive
  rw [applyCmds_msgCmds]
  simp only [msgEvents, if_pos hlive]

/-- Witness for C8: a success message for live record 2 fires one event and
retires the record in the same flush. -/
theorem C8_witness :
    applyCmds ⟨[⟨2, 0, false, true, false⟩], [], []⟩
        (msgCmds (2, .ok (3, 1, [1, 1, 1, 1, 2, 2, 2, 2, 3, 3, 3, 3]))) =
      ⟨[], [⟨2, 3, 1, [1, 1, 1, 1, 2, 2, 2, 2, 3, 3, 3, 3]⟩], [2]⟩ := by
  have h := (C8_success_order_then_retire).2.1 ⟨[⟨2, 0, false, true, false⟩], [], []⟩
    2 3 1 [1, 1, 1, 1, 2, 2, 2, 2, 3, 3, 3, 3] (by decide)
  rw [h]
  decide

/-- C6 (amended): every completion event carries exactly the
`(width, height, bytes)` payload of the worker's success result.  When the
capture facility's images satisfy the RGBA image-buffer invariant
(`Img.wf`), every success result of `capture_window` — and hence every
fired event — satisfies `bytes.length = width * height * 4`.  The code
performs no check of `width > 0` or `height > 0`; those hold only when the
capture facility never returns an empty image (see the counterexample). -/
theorem C6_amended_event_payload :
    (∀ (os : TargetOS) (allWindows : List XcapWindow) (raw : RawWindowHandle)
        (title : Option String) (w h : Nat) (bytes : List Nat),
      (∀ win ∈ allWindows, ∀ img, win.capture = .ok img → img.wf) →
      capture_window os (.ok allWindows) raw title = .ok (w, h, bytes) →
      bytes.length = w * h * 4) ∧
    (∀ (P : Nat → Nat → List Nat → Prop) (a : CoordState) (q : List CaptureMsg),
      (∀ m ∈ q, ∀ w h bytes, m.2 = .ok (w, h, bytes) → P w h bytes) →
      (∀ e ∈ a.events, P e.width e.height e.rgba) →
      ∀ e ∈ (applyCmds a ((poll_captures q).cmds)).events,
        P e.width e.height e.rgba) := by
  constructor
  · intro os allWindows raw title w h bytes hwf hok
    have hxcap : ∀ w0 ∈ allWindows, capture_xcap_window w0 = .ok (w, h, bytes) →
        bytes.length = w * h * 4 := by
      intro w0 hw0 hcap
      unfold capture_xcap_window at hcap
      cases hc : w0.capture with
      | error e =>
        rw [hc] at hcap
        cases hcap
      | ok img =>
        rw [hc] at hcap
        have himg : img.rgba.length = img.width * img.height * 4 := hwf w0 hw0 img hc
        simp only [Except.ok.injEq, Prod.mk.injEq] at hcap
        obtain ⟨h1, h2, h3⟩ := hcap
        rw [← h1, ← h2, ← h3]
        exact himg
    have htf : titleFallback allWindows title = .ok (w, h, bytes) →
        bytes.length = w * h * 4 := by
      intro hok2
      cases title with
      | none => cases hok2
      | some t =>
        cases hfind : allWindows.find? (fun w0 => w0.title = some t) with
        | some w0 =>
          have hr : titleFallback allWindows (some t) = capture_xcap_window w0 := by
            simp only [titleFallback, hfind]
          rw [hr] at hok2
          exact hxcap w0 (List.mem_of_find?_eq_some hfind) hok2
        | none =>
          have hr : titleFallback allWindows (some t) =
              .error ("No matching xcap window found") := by
            simp only [titleFallback, hfind]
          rw [hr] at hok2
          cases hok2
    cases hid : native_window_id os raw with
    | some tid =>
      cases hfind : allWindows.find? (fun w0 => w0.id = some tid) with
      | some w0 =>
        have hr : capture_window os (.ok allWindows) raw title =
            capture_xcap_window w0 := by
          simp only [capture_window, hid, hfind]
        rw [hr] at hok
        exact hxcap w0 (List.mem_of_find?_eq_some hfind) hok
      | none =>
        have hr : capture_window os (.ok allWindows) raw title =
            titleFallback allWindows title := by
          simp only [capture_window, hid, hfind]
        rw [hr] at hok
        exact htf hok
    | none =>
      have hr : capture_window os (.ok allWindows) raw title =
          titleFallback allWindows title := by
        simp only [capture_window, hid]
      rw [hr] at hok
      exact htf hok
  · intro P a q
    induction q generalizing a with
    | nil =>
      intro _ hbase e he
      exact hbase e he
    | cons m rest ih =>
      intro hq hbase e he
      rw [poll_captures_cons, applyCmds_append] at he
      refine ih (applyCmds a (msgCmds m))
        (fun m2 hm2 => hq m2 (List.mem_cons_of_mem _ hm2)) ?_ e he
      intro e2 he2
      rw [applyCmds_msgCmds] at he2
      rcases List.mem_append.mp he2 with hh | hh
      · exact hbase e2 hh
      · obtain ⟨i, res⟩ := m
        cases res with
        | error er => simp [msgEvents] at hh
        | ok payload =>
          obtain ⟨width, height, rgba⟩ := payload
          by_cases hl : i ∈ idsOf a.world
          · simp only [msgEvents, if_pos hl, List.mem_singleton] at hh
            subst hh
            exact hq (i, .ok (width, height, rgba)) (List.mem_cons_self _ _)
              width height rgba rfl
          · simp [msgEvents, if_neg hl] at hh

/-- Counterexample for C6 as stated: an enumerated window whose capture
yields a well-formed but empty 0-by-0 RGBA image flows through
`capture_window` and `poll_captures` into a delivered completion event with
`width = 0`, so "every successful completion event satisfies `width > 0`
and `height > 0`" fails on the code. -/
theorem C6_counterexample :
    ¬ (∀ e ∈ (applyCmds ⟨[⟨7, 0, false, true, false⟩], [], []⟩
        (msgCmds (7, capture_window .linux
          (.ok [⟨some 5, none, .ok ⟨0, 0, []⟩⟩]) (.xlib 5) none))).events,
        0 < e.width ∧ 0 < e.height) := by
  intro hall
  have h := hall ⟨7, 0, 0, []⟩ (by decide)
  exact absurd h.1 (lt_irrefl 0)

/-- Witness for C6: with well-formed facility images, a delivered event
satisfies the length invariant; the payload-transfer part instantiated at
the length property. -/
theorem C6_witness :
    capture_window .linux (.ok [⟨some 5, none, .ok ⟨1, 2, [1, 1, 1, 1, 2, 2, 2, 2]⟩⟩])
        (.xlib 5) none = .ok (1, 2, [1, 1, 1, 1, 2, 2, 2, 2]) ∧
    ([1, 1, 1, 1, 2, 2, 2, 2] : List Nat).length = 1 * 2 * 4 :=
  ⟨by decide,
   (C6_amended_event_payload).1 .linux
      [⟨some 5, none, .ok ⟨1, 2, [1, 1, 1, 1, 2, 2, 2, 2]⟩⟩] (.xlib 5) none
      1 2 [1, 1, 1, 1, 2, 2, 2, 2]
      (by
        intro win hwin img hc
        rw [List.mem_singleton.mp hwin] at hc
        injection hc with h
        rw [← h]
        decide)
      (by decide)⟩

/-- C5: across every trace of submissions, despawns, worker completions
and coordinator runs — in any interleaving — each request identity receives
at most one completion event, and once a request's record has been removed
from the world no further event for that identity is ever delivered, no
matter how the trace continues. -/
theorem C5_callback_at_most_once (os : TargetOS) (acts : List Action) :
    ((run os acts).events.map Event.entity).Nodup ∧
    ∀ (more : List Action) (i : Nat), i ∈ (run os acts).removed →
      countEv i (run os (acts ++ more)).events = countEv i (run os acts).events := by
  refine ⟨(inv_run os acts).events_nodup, ?_⟩
  intro more i hi
  rw [run_append]
  exact countEv_foldl_of_removed os i more (run os acts) (inv_run os acts) hi

/-- Witness for C5: request 0 is retired by the missing-handle path; a
subsequent poll tick delivers no event for it. -/
theorem C5_witness :
    (0 : Nat) ∈ (run .linux
        [Action.submit 0, Action.dispatchSys (fun _ => none) (fun _ => none)]).removed ∧
    countEv 0 (run .linux
        ([Action.submit 0, Action.dispatchSys (fun _ => none) (fun _ => none)] ++
          [Action.pollSys])).events =
      countEv 0 (run .linux
        [Action.submit 0, Action.dispatchSys (fun _ => none) (fun _ => none)]).events :=
  ⟨by decide,
   (C5_callback_at_most_once .linux
      [Action.submit 0, Action.dispatchSys (fun _ => none) (fun _ => none)]).2
      [Action.pollSys] 0 (by decide)⟩

/-- C7: across every trace, at most one worker thread is ever launched per
request identity — the cumulative launch history never repeats an id, so a
request observed in `New` during one tick's dispatch is never dispatched
again on any later tick. -/
theorem C7_at_most_one_worker_per_request (os : TargetOS) (acts : List Action) :
    (run os acts).launched.Nodup :=
  (inv_run os acts).launched_nodup

/-- C1 (amended): `XCapPlugin::build` registers `dispatch_captures` and
`poll_captures` in the `Update` schedule with no ordering constraint
between them (the tuple passed to `add_systems` is not chained), so a tick
may execute the two phases in either order; dispatch-before-poll is one
valid order among two. -/
theorem C1_amended_phases_unordered :
    xcapUpdateSchedule.constraints = [] ∧
    validTickOrder xcapUpdateSchedule [SystemId.dispatch, SystemId.poll] ∧
    validTickOrder xcapUpdateSchedule [SystemId.poll, SystemId.dispatch] := by
  refine ⟨rfl, by decide, by decide⟩

/-- Counterexample for C1 as stated: the schedule built by the plugin
admits the tick order that runs `poll_captures` before
`dispatch_captures`, so it is not the case that every valid tick order
performs all Phase A dispatches before any Phase B poll. -/
theorem C1_counterexample :
    ¬ (∀ order : List SystemId, validTickOrder xcapUpdateSchedule order →
        order.indexOf SystemId.dispatch < order.indexOf SystemId.poll) := by
  intro hall
  have h := hall [SystemId.poll, SystemId.dispatch] (by decide)
  have h2 : ¬([SystemId.poll, SystemId.dispatch].indexOf SystemId.dispatch <
      [SystemId.poll, SystemId.dispatch].indexOf SystemId.poll) := by decide
  exact h2 h

end BevyXcap
